import Mathlib

/-!
Verification of the unisim concentrated-liquidity AMM simulator.

This file embeds the tick/price/liquidity mathematics of `unisim/utils.py`,
the fee-tier table, token construction, burn, liquidity-removal and
data-collection logic of `unisim/pool.py`, and proves the specified
properties about them.

Modelling conventions:
- Python floats are modelled as exact rationals (`ℚ`), or as reals (`ℝ`)
  where the source applies `math.sqrt` / `math.log`;
- Python `int(x)` (truncation toward zero) is modelled by `qtrunc` / `rtrunc`;
- a failing Python `assert` is modelled as `Option.none`;
- external EVM contract state (token balances, position liquidity) is passed
  explicitly as function arguments, mirroring the values the Python code reads
  from the ledger before computing.
-/

set_option exponentiation.threshold 500000
set_option maxRecDepth 8000

/-- Q96 from utils.py: `Q96 = 2**96`, the fixed-point scale. -/
def Q96 : ℕ := 2 ^ 96

/-- TICK_BASE from utils.py: `TICK_BASE = 1.0001`, the logarithmic price grid base. -/
noncomputable def TICK_BASE : ℝ := 1.0001

/-- MIN_TICK from utils.py: `MIN_TICK = -887272`. -/
def MIN_TICK : ℤ := -887272

/-- MAX_TICK from utils.py: `MAX_TICK = 887272`. -/
def MAX_TICK : ℤ := 887272

/-- Python `int()` applied to a rational: truncation toward zero
(Int.tdiv is the T-rounding division, matching CPython). -/
def qtrunc (q : ℚ) : ℤ := q.num.tdiv q.den

/-- Python `int()` applied to a real: truncation toward zero. -/
noncomputable def rtrunc (x : ℝ) : ℤ := if 0 ≤ x then ⌊x⌋ else ⌈x⌉

/-- Python tuple swap used throughout utils.py: `if pa > pb: pa, pb = pb, pa`. -/
def sort2 (a b : ℚ) : ℚ × ℚ := if a > b then (b, a) else (a, b)

/-- as_18 from utils.py: `int(value * 1e18)`, scaling to 18-decimal fixed point. -/
def as_18 (value : ℚ) : ℤ := qtrunc (value * 10 ^ 18)

/-- from_18 from utils.py: `value / 1e18`, descaling from 18-decimal fixed point. -/
def from_18 (value : ℤ) : ℚ := (value : ℚ) / 10 ^ 18

/-- is_tick_in_range from utils.py: `tick >= MIN_TICK and tick <= MAX_TICK`. -/
def is_tick_in_range (tick : ℤ) : Bool := decide (MIN_TICK ≤ tick ∧ tick ≤ MAX_TICK)

/-- sqrtp_to_price from utils.py: `(sqrtpvalue / Q96) ** 2`. -/
def sqrtp_to_price (sqrtpvalue : ℤ) : ℚ := ((sqrtpvalue : ℚ) / (Q96 : ℚ)) ^ 2

/-- price_to_sqrtp from utils.py: `int(math.sqrt(token1price) * Q96)`. -/
noncomputable def price_to_sqrtp (token1price : ℚ) : ℤ :=
  rtrunc (Real.sqrt (token1price : ℝ) * (Q96 : ℝ))

/-- price_to_tick from utils.py: `math.floor(math.log(token1price, TICK_BASE))`. -/
noncomputable def price_to_tick (token1price : ℚ) : ℤ :=
  ⌊Real.logb TICK_BASE (token1price : ℝ)⌋

/-- tick_to_sqrtx96 from utils.py: `int((TICK_BASE ** (tick / 2)) * Q96)`. -/
noncomputable def tick_to_sqrtx96 (tick : ℤ) : ℤ :=
  rtrunc (TICK_BASE ^ ((tick : ℝ) / 2) * (Q96 : ℝ))

/-- liquidity0 from utils.py: swaps `pa, pb` so `pa <= pb`, asserts the
denominator `pb - pa` is positive (`none` on assertion failure), and returns
`(amount * (pa * pb) / Q96) / denominator`. -/
def liquidity0 (amount pa pb : ℚ) : Option ℚ :=
  let s := sort2 pa pb
  let denominator := s.2 - s.1
  if 0 < denominator then some (amount * (s.1 * s.2) / (Q96 : ℚ) / denominator)
  else none

/-- liquidity1 from utils.py: swaps `pa, pb` so `pa <= pb`, asserts the
denominator `pb - pa` is positive (`none` on assertion failure), and returns
`amount * Q96 / denominator`. -/
def liquidity1 (amount pa pb : ℚ) : Option ℚ :=
  let s := sort2 pa pb
  let denominator := s.2 - s.1
  if 0 < denominator then some (amount * (Q96 : ℚ) / denominator)
  else none

/-- get_liquidity_for_amounts from utils.py: sorts the bounds, then applies
the three-region rule; the middle region takes `liq0` if `liq0 < liq1` and
`liq1` otherwise. Assertion failures inside liquidity0/liquidity1 propagate. -/
def get_liquidity_for_amounts (sqrtC sqrtA sqrtB amount0 amount1 : ℚ) : Option ℚ :=
  let s := sort2 sqrtA sqrtB
  if sqrtC ≤ s.1 then liquidity0 amount0 s.1 s.2
  else if sqrtC < s.2 then
    (liquidity0 amount0 sqrtC s.2).bind fun liq0 =>
      (liquidity1 amount1 s.1 sqrtC).map fun liq1 =>
        if liq0 < liq1 then liq0 else liq1
  else liquidity1 amount1 s.1 s.2

/-- calc_amount0 from utils.py: sorts the bounds and returns
`int(liq * Q96 * (pb - pa) / pb / pa)`. -/
def calc_amount0 (liq pa pb : ℚ) : ℤ :=
  let s := sort2 pa pb
  qtrunc (liq * (Q96 : ℚ) * (s.2 - s.1) / s.2 / s.1)

/-- calc_amount1 from utils.py: sorts the bounds and returns
`int(liq * (pb - pa) / Q96)`. -/
def calc_amount1 (liq pa pb : ℚ) : ℤ :=
  let s := sort2 pa pb
  qtrunc (liq * (s.2 - s.1) / (Q96 : ℚ))

/-- get_amounts_for_liquidity from utils.py: sorts the bounds and computes the
token amounts for the three regions (amount0 only below the range, both inside,
amount1 only above). -/
def get_amounts_for_liquidity (liq sqrtC sqrtA sqrtB : ℚ) : ℤ × ℤ :=
  let s := sort2 sqrtA sqrtB
  if sqrtC ≤ s.1 then (calc_amount0 liq s.1 s.2, 0)
  else if sqrtC < s.2 then (calc_amount0 liq sqrtC s.2, calc_amount1 liq s.1 sqrtC)
  else (0, calc_amount1 liq s.1 s.2)

/-- FEE_RANGE from pool.py: `[100, 500, 3000, 10_000]`. -/
def FEE_RANGE : List ℤ := [100, 500, 3000, 10000]

/-- FEE_TICK_SPACING from pool.py: `[1, 10, 60, 200]`. -/
def FEE_TICK_SPACING : List ℤ := [1, 10, 60, 200]

/-- get_spacing_for_fee from pool.py: asserts membership in FEE_RANGE
(`none` on assertion failure) and returns `FEE_TICK_SPACING[FEE_RANGE.index(fee)]`. -/
def get_spacing_for_fee (fee : ℤ) : Option ℤ :=
  if fee ∈ FEE_RANGE then FEE_TICK_SPACING.get? (FEE_RANGE.indexOf fee) else none

/-- get_fee_for_spacing from pool.py: asserts membership in FEE_TICK_SPACING
(`none` on assertion failure) and returns `FEE_RANGE[FEE_TICK_SPACING.index(spacing)]`. -/
def get_fee_for_spacing (spacing : ℤ) : Option ℤ :=
  if spacing ∈ FEE_TICK_SPACING then FEE_RANGE.get? (FEE_TICK_SPACING.indexOf spacing) else none

/-- Token from pool.py: symbol plus a starting price. -/
structure Token where
  symbol : String
  start_price : ℚ

/-- Token.initial_price from pool.py: `as_18(self.start_price)`. -/
def Token.initial_price (t : Token) : ℤ := as_18 t.start_price

/-- Initial sqrt price computed by Pool.__init__ in pool.py: after asserting
the fee is valid and `token_b.start_price == 1`, the pool is initialized with
`price_to_sqrtp(_token_b.initial_price / _token_a.initial_price)`.
Assertion failure is modelled as `none`. -/
noncomputable def pool_init_sqrtp (token_a token_b : Token) (fee : ℤ) : Option ℤ :=
  if fee ∈ FEE_RANGE ∧ token_b.start_price = 1 then
    some (price_to_sqrtp ((token_b.initial_price : ℚ) / (token_a.initial_price : ℚ)))
  else none

/-- Pool.burn_tokens from pool.py, acting on the two ledger balances of the
owner: each side scales its amount with as_18 and burns (debits) it only when
the scaled amount is positive and the balance covers it; otherwise that side
is left untouched. No error is ever raised: the function is total. -/
def burn_tokens (amt_t0 amt_t1 : ℚ) (bal0 bal1 : ℤ) : ℤ × ℤ :=
  let at0 := as_18 amt_t0
  let at1 := as_18 amt_t1
  (if at0 > 0 ∧ bal0 ≥ at0 then bal0 - at0 else bal0,
   if at1 > 0 ∧ bal1 ≥ at1 then bal1 - at1 else bal1)

/-- Pool.remove_liquidity from pool.py, reduced to its local decision logic:
it asserts `percentage > 0 and percentage <= 1` (`none` models the failed
assertion) and otherwise passes `int(liq * percentage)` to the ledger's
decreaseLiquidity, where `liq` is the position liquidity read from the ledger
before the call. The ledger effects themselves are external. -/
def remove_liquidity (liq : ℕ) (percentage : ℚ) : Option ℤ :=
  if percentage > 0 ∧ percentage ≤ 1 then some (qtrunc ((liq : ℚ) * percentage))
  else none

/-! Helper lemmas about truncation, sorting and the liquidity functions. -/

/-- Truncation toward zero agrees with floor on nonnegative arguments. -/
theorem qtrunc_eq_floor {q : ℚ} (h : 0 ≤ q) : qtrunc q = ⌊q⌋ := by
  rw [Rat.floor_def]
  exact Int.tdiv_eq_ediv (Rat.num_nonneg.2 h) (Int.natCast_nonneg _)

/-- Truncation toward zero is bounded by the argument on nonnegative inputs. -/
theorem qtrunc_le {q : ℚ} (h : 0 ≤ q) : (qtrunc q : ℚ) ≤ q := by
  rw [qtrunc_eq_floor h]; exact Int.floor_le q

/-- Truncation of a nonnegative rational is nonnegative. -/
theorem qtrunc_nonneg {q : ℚ} (h : 0 ≤ q) : 0 ≤ qtrunc q := by
  rw [qtrunc_eq_floor h]; exact Int.floor_nonneg.2 h

/-- Truncation of an integer is that integer. -/
theorem qtrunc_intCast (n : ℤ) : qtrunc (n : ℚ) = n := by
  simp [qtrunc]

/-- as_18 of an integer-valued amount. -/
theorem as_18_intCast (n : ℤ) : as_18 (n : ℚ) = n * 10 ^ 18 := by
  unfold as_18
  rw [show ((n : ℚ) * 10 ^ 18) = ((n * 10 ^ 18 : ℤ) : ℚ) by push_cast; ring, qtrunc_intCast]

/-- as_18 evaluated at 1. -/
theorem as_18_one : as_18 1 = 10 ^ 18 := by
  have h := as_18_intCast 1
  simpa using h

/-- as_18 evaluated at 2. -/
theorem as_18_two : as_18 2 = 2 * 10 ^ 18 := by
  have h := as_18_intCast 2
  simpa using h

/-- Sorting a pair already in order is the identity. -/
theorem sort2_of_le {a b : ℚ} (h : a ≤ b) : sort2 a b = (a, b) := if_neg (not_lt.2 h)

/-- liquidity0 on an ordered range with positive width returns its formula. -/
theorem liquidity0_of_lt {pa pb : ℚ} (amount : ℚ) (h : pa < pb) :
    liquidity0 amount pa pb = some (amount * (pa * pb) / (Q96 : ℚ) / (pb - pa)) := by
  simp only [liquidity0, sort2_of_le h.le]
  rw [if_pos (by simpa using h)]

/-- liquidity1 on an ordered range with positive width returns its formula. -/
theorem liquidity1_of_lt {pa pb : ℚ} (amount : ℚ) (h : pa < pb) :
    liquidity1 amount pa pb = some (amount * (Q96 : ℚ) / (pb - pa)) := by
  simp only [liquidity1, sort2_of_le h.le]
  rw [if_pos (by simpa using h)]

/-- liquidity0 fails its denominator assertion on a degenerate range. -/
theorem liquidity0_self (amount pa : ℚ) : liquidity0 amount pa pa = none := by
  simp [liquidity0, sort2]

/-- liquidity1 fails its denominator assertion on a degenerate range. -/
theorem liquidity1_self (amount pa : ℚ) : liquidity1 amount pa pa = none := by
  simp [liquidity1, sort2]

/-- With ordered bounds and current price at or below the range,
get_liquidity_for_amounts is the amount0-limited computation. -/
theorem gl_region_low {sqrtC sqrtA sqrtB : ℚ} (amount0 amount1 : ℚ)
    (hAB : sqrtA ≤ sqrtB) (hC : sqrtC ≤ sqrtA) :
    get_liquidity_for_amounts sqrtC sqrtA sqrtB amount0 amount1 =
      liquidity0 amount0 sqrtA sqrtB := by
  simp only [get_liquidity_for_amounts, sort2_of_le hAB]
  rw [if_pos hC]

/-- With ordered bounds and current price at or above the range,
get_liquidity_for_amounts is the amount1-limited computation. -/
theorem gl_region_high {sqrtC sqrtA sqrtB : ℚ} (amount0 amount1 : ℚ)
    (hAB : sqrtA ≤ sqrtB) (hA : sqrtA < sqrtC) (hC : sqrtB ≤ sqrtC) :
    get_liquidity_for_amounts sqrtC sqrtA sqrtB amount0 amount1 =
      liquidity1 amount1 sqrtA sqrtB := by
  simp only [get_liquidity_for_amounts, sort2_of_le hAB]
  rw [if_neg (by exact not_le.2 hA), if_neg (by exact not_lt.2 hC)]

/-- With the current price strictly inside the range,
get_liquidity_for_amounts is the minimum of the two single-sided computations. -/
theorem gl_region_mid {sqrtC sqrtA sqrtB : ℚ} (amount0 amount1 : ℚ)
    (hA : sqrtA < sqrtC) (hB : sqrtC < sqrtB) :
    get_liquidity_for_amounts sqrtC sqrtA sqrtB amount0 amount1 =
      some (min (amount0 * (sqrtC * sqrtB) / (Q96 : ℚ) / (sqrtB - sqrtC))
        (amount1 * (Q96 : ℚ) / (sqrtC - sqrtA))) := by
  have hAB : sqrtA ≤ sqrtB := (hA.trans hB).le
  simp only [get_liquidity_for_amounts, sort2_of_le hAB]
  rw [if_neg (by exact not_le.2 hA), if_pos hB,
    liquidity0_of_lt amount0 hB, liquidity1_of_lt amount1 hA]
  simp only [Option.some_bind, Option.map_some']
  congr 1
  split_ifs with h
  · exact (min_eq_left h.le).symm
  · exact (min_eq_right (le_of_not_lt h)).symm

/-- C9: the fee/tick-spacing tables form a bijection between
{100, 500, 3000, 10000} and {1, 10, 60, 200}: composing the two lookups is
the identity on every valid spacing, and the unknown fee 333 and unknown
spacing 15 both fail the membership assertion instead of being defaulted. -/
theorem fee_spacing_bijection :
    (∀ s : ℤ, s ∈ FEE_TICK_SPACING →
      (get_fee_for_spacing s).bind get_spacing_for_fee = some s) ∧
    get_spacing_for_fee 333 = none ∧ get_fee_for_spacing 15 = none := by
  refine ⟨?_, by decide, by decide⟩
  intro s hs
  fin_cases hs <;> decide

/-- Witness for C9 at the valid spacing 60. -/
theorem fee_spacing_bijection_witness :
    (60 : ℤ) ∈ FEE_TICK_SPACING ∧
      (get_fee_for_spacing 60).bind get_spacing_for_fee = some 60 :=
  ⟨by decide, fee_spacing_bijection.1 60 (by decide)⟩

/-- C7: remove_liquidity rejects exactly the fractions outside (0, 1] with the
invalid-percentage assertion, and for a fraction inside (0, 1] requests the
ledger to decrease the position liquidity by floor(liquidity * fraction). -/
theorem remove_liquidity_fraction (liq : ℕ) (percentage : ℚ) :
    (remove_liquidity liq percentage = none ↔ percentage ≤ 0 ∨ 1 < percentage) ∧
    (0 < percentage → percentage ≤ 1 →
      remove_liquidity liq percentage = some ⌊(liq : ℚ) * percentage⌋) := by
  constructor
  · simp only [remove_liquidity]
    split_ifs with h
    · simp only [reduceCtorEq, false_iff]
      push_neg
      exact ⟨h.1, h.2⟩
    · simp only [true_iff]
      rcases not_and_or.1 h with h1 | h2
      · exact Or.inl (not_lt.1 h1)
      · exact Or.inr (not_le.1 h2)
  · intro h1 h2
    rw [remove_liquidity, if_pos ⟨h1, h2⟩,
      qtrunc_eq_floor (mul_nonneg (Nat.cast_nonneg liq) h1.le)]

/-- Witness for C7: removing half of a liquidity of 11 requests a decrease of 5. -/
theorem remove_liquidity_fraction_witness :
    0 < (1 / 2 : ℚ) ∧ (1 / 2 : ℚ) ≤ 1 ∧
      remove_liquidity 11 (1 / 2) = some ⌊((11 : ℕ) : ℚ) * (1 / 2)⌋ :=
  ⟨by norm_num, by norm_num,
    (remove_liquidity_fraction 11 (1 / 2)).2 (by norm_num) (by norm_num)⟩

/-- C8: burn_tokens is tolerant and per-side independent: a side whose balance
covers the 18-decimal-scaled amount is debited by exactly that amount, a side
with insufficient balance is left unchanged (and no error is raised, the
function being total), and each side's outcome does not depend on the other
side's amount or balance. -/
theorem burn_tokens_per_side (amt_t0 amt_t1 : ℚ) (bal0 bal1 : ℤ)
    (h0 : 0 ≤ amt_t0) (h1 : 0 ≤ amt_t1) :
    (as_18 amt_t0 ≤ bal0 → (burn_tokens amt_t0 amt_t1 bal0 bal1).1 = bal0 - as_18 amt_t0) ∧
    (bal0 < as_18 amt_t0 → (burn_tokens amt_t0 amt_t1 bal0 bal1).1 = bal0) ∧
    (as_18 amt_t1 ≤ bal1 → (burn_tokens amt_t0 amt_t1 bal0 bal1).2 = bal1 - as_18 amt_t1) ∧
    (bal1 < as_18 amt_t1 → (burn_tokens amt_t0 amt_t1 bal0 bal1).2 = bal1) ∧
    (∀ a b : ℚ, ∀ c d : ℤ,
      (burn_tokens amt_t0 a bal0 c).1 = (burn_tokens amt_t0 b bal0 d).1 ∧
      (burn_tokens a amt_t1 c bal1).2 = (burn_tokens b amt_t1 d bal1).2) := by
  have hn0 : 0 ≤ as_18 amt_t0 := qtrunc_nonneg (mul_nonneg h0 (by norm_num))
  have hn1 : 0 ≤ as_18 amt_t1 := qtrunc_nonneg (mul_nonneg h1 (by norm_num))
  refine ⟨?_, ?_, ?_, ?_, ?_⟩
  · intro hle
    simp only [burn_tokens]
    rcases lt_or_eq_of_le hn0 with hpos | hzero
    · rw [if_pos ⟨hpos, hle⟩]
    · rw [if_neg (by omega)]
      omega
  · intro hlt
    simp only [burn_tokens]
    rw [if_neg (by omega)]
  · intro hle
    simp only [burn_tokens]
    rcases lt_or_eq_of_le hn1 with hpos | hzero
    · rw [if_pos ⟨hpos, hle⟩]
    · rw [if_neg (by omega)]
      omega
  · intro hlt
    simp only [burn_tokens]
    rw [if_neg (by omega)]
  · intro a b c d
    exact ⟨rfl, rfl⟩

/-- Witness for C8: burning (1, 2) against balances (10^18, 10^18) debits the
covered token0 side by 10^18 and leaves the insufficient token1 side unchanged. -/
theorem burn_tokens_per_side_witness :
    0 ≤ (1 : ℚ) ∧ 0 ≤ (2 : ℚ) ∧ as_18 1 ≤ (10 ^ 18 : ℤ) ∧
      (10 ^ 18 : ℤ) < as_18 2 ∧
      (burn_tokens 1 2 (10 ^ 18) (10 ^ 18)).1 = 10 ^ 18 - as_18 1 ∧
      (burn_tokens 1 2 (10 ^ 18) (10 ^ 18)).2 = 10 ^ 18 :=
  ⟨by norm_num, by norm_num, by rw [as_18_one], by rw [as_18_two]; norm_num,
    (burn_tokens_per_side 1 2 (10 ^ 18) (10 ^ 18) (by norm_num) (by norm_num)).1
      (by rw [as_18_one]),
    (burn_tokens_per_side 1 2 (10 ^ 18) (10 ^ 18) (by norm_num) (by norm_num)).2.2.2.1
      (by rw [as_18_two]; norm_num)⟩

/-- Sorting a pair is symmetric in its arguments. -/
theorem sort2_comm (a b : ℚ) : sort2 a b = sort2 b a := by
  unfold sort2
  rcases lt_trichotomy a b with h | h | h
  · rw [if_neg (not_lt.2 h.le), if_pos h]
  · subst h; rfl
  · rw [if_pos h, if_neg (not_lt.2 h.le)]

/-- get_liquidity_for_amounts only sees the sorted bounds. -/
theorem gl_swap (sqrtC sqrtA sqrtB a0 a1 : ℚ) :
    get_liquidity_for_amounts sqrtC sqrtB sqrtA a0 a1 =
      get_liquidity_for_amounts sqrtC sqrtA sqrtB a0 a1 := by
  unfold get_liquidity_for_amounts
  rw [sort2_comm]

/-- On strictly ordered bounds, every region of get_liquidity_for_amounts
passes the internal denominator assertions and produces a value. -/
theorem gl_isSome_of_lt {sqrtA sqrtB : ℚ} (sqrtC a0 a1 : ℚ) (h : sqrtA < sqrtB) :
    (get_liquidity_for_amounts sqrtC sqrtA sqrtB a0 a1).isSome = true := by
  rcases le_or_lt sqrtC sqrtA with hC | hA
  · rw [gl_region_low a0 a1 h.le hC, liquidity0_of_lt a0 h]; rfl
  · rcases lt_or_le sqrtC sqrtB with hB | hB2
    · rw [gl_region_mid a0 a1 hA hB]; rfl
    · rw [gl_region_high a0 a1 h.le hA hB2, liquidity1_of_lt a1 h]; rfl

/-- C1: with the bounds already ordered (the function swaps them internally
otherwise), get_liquidity_for_amounts follows the three-region rule: at or
below the range it is the amount0-limited liquidity over the full range, at
or above it the amount1-limited liquidity over the full range, and strictly
inside it the minimum of the two single-sided computations split at the
current price. -/
theorem get_liquidity_three_region_rule (sqrtC sqrtA sqrtB amount0 amount1 : ℚ)
    (hAB : sqrtA ≤ sqrtB) :
    (sqrtC ≤ sqrtA →
      get_liquidity_for_amounts sqrtC sqrtA sqrtB amount0 amount1 =
        liquidity0 amount0 sqrtA sqrtB) ∧
    (sqrtB ≤ sqrtC →
      get_liquidity_for_amounts sqrtC sqrtA sqrtB amount0 amount1 =
        liquidity1 amount1 sqrtA sqrtB) ∧
    (sqrtA < sqrtC → sqrtC < sqrtB →
      get_liquidity_for_amounts sqrtC sqrtA sqrtB amount0 amount1 =
        Option.map₂ min (liquidity0 amount0 sqrtC sqrtB)
          (liquidity1 amount1 sqrtA sqrtC)) := by
  refine ⟨fun hC => gl_region_low amount0 amount1 hAB hC, ?_, ?_⟩
  · intro hC
    rcases le_or_lt sqrtC sqrtA with hCA | hAC
    · have hBA : sqrtA = sqrtB := le_antisymm hAB (hC.trans hCA)
      subst hBA
      rw [gl_region_low amount0 amount1 le_rfl hCA, liquidity0_self, liquidity1_self]
    · exact gl_region_high amount0 amount1 hAB hAC hC
  · intro hA hB
    rw [gl_region_mid amount0 amount1 hA hB,
      liquidity0_of_lt amount0 hB, liquidity1_of_lt amount1 hA]
    simp [Option.map₂]

/-- Witness for C1 in the middle region at sqrtC = 2, bounds (1, 3). -/
theorem get_liquidity_three_region_rule_witness :
    (1 : ℚ) ≤ 3 ∧ (1 : ℚ) < 2 ∧ (2 : ℚ) < 3 ∧
      get_liquidity_for_amounts 2 1 3 5 7 =
        Option.map₂ min (liquidity0 5 2 3) (liquidity1 7 1 2) :=
  ⟨by norm_num, by norm_num, by norm_num,
    (get_liquidity_three_region_rule 2 1 3 5 7 (by norm_num)).2.2
      (by norm_num) (by norm_num)⟩

/-- C10: equal price bounds make every region of get_liquidity_for_amounts
hit the denominator assertion of liquidity0/liquidity1 (modelled as `none`),
while strictly distinct bounds make the function total: the assertion branch
is unreachable in each of the three regions. -/
theorem get_liquidity_bounds_assertion (sqrtC sqrtA sqrtB amount0 amount1 : ℚ) :
    (sqrtA = sqrtB →
      get_liquidity_for_amounts sqrtC sqrtA sqrtB amount0 amount1 = none) ∧
    (sqrtA ≠ sqrtB →
      (get_liquidity_for_amounts sqrtC sqrtA sqrtB amount0 amount1).isSome = true) := by
  constructor
  · rintro rfl
    rcases le_or_lt sqrtC sqrtA with hC | hA
    · rw [gl_region_low amount0 amount1 le_rfl hC]
      exact liquidity0_self amount0 sqrtA
    · rw [gl_region_high amount0 amount1 le_rfl hA hA.le]
      exact liquidity1_self amount1 sqrtA
  · intro hne
    rcases hne.lt_or_lt with h | h
    · exact gl_isSome_of_lt sqrtC amount0 amount1 h
    · rw [← gl_swap]
      exact gl_isSome_of_lt sqrtC amount0 amount1 h

/-- Witness for C10: degenerate bounds (2, 2) fail, distinct bounds (2, 3)
produce a value. -/
theorem get_liquidity_bounds_assertion_witness :
    get_liquidity_for_amounts 1 2 2 5 7 = none ∧
      (get_liquidity_for_amounts 1 2 3 5 7).isSome = true :=
  ⟨(get_liquidity_bounds_assertion 1 2 2 5 7).1 rfl,
    (get_liquidity_bounds_assertion 1 2 3 5 7).2 (by norm_num)⟩

/-- Casting Q96 to the rationals. -/
theorem q96_cast : ((Q96 : ℕ) : ℚ) = 2 ^ 96 := by
  norm_num [Q96]

/-- Feeding the truncated amount0 of a range back into the amount0-limited
liquidity formula can only lose value: the result is at most the original
liquidity. -/
theorem roundtrip0_le {L pa pb : ℚ} (hpa : 0 < pa) (hab : pa < pb) (hL : 0 ≤ L) :
    (calc_amount0 L pa pb : ℚ) * (pa * pb) / (Q96 : ℚ) / (pb - pa) ≤ L := by
  have hq : (0 : ℚ) < (Q96 : ℚ) := by rw [q96_cast]; positivity
  have hpb : (0 : ℚ) < pb := hpa.trans hab
  have hd : (0 : ℚ) < pb - pa := sub_pos.2 hab
  have hx : (0 : ℚ) ≤ L * (Q96 : ℚ) * (pb - pa) / pb / pa := by positivity
  have h1 : (calc_amount0 L pa pb : ℚ) ≤ L * (Q96 : ℚ) * (pb - pa) / pb / pa := by
    simp only [calc_amount0, sort2_of_le hab.le]
    exact qtrunc_le hx
  have h2 : (calc_amount0 L pa pb : ℚ) * (pa * pb) / (Q96 : ℚ) / (pb - pa) =
      (calc_amount0 L pa pb : ℚ) * (pa * pb / (Q96 : ℚ) / (pb - pa)) := by
    ring
  have h3 : (L * (Q96 : ℚ) * (pb - pa) / pb / pa) * (pa * pb / (Q96 : ℚ) / (pb - pa)) = L := by
    field_simp
    ring
  rw [h2]
  exact le_trans (mul_le_mul_of_nonneg_right h1 (by positivity)) (le_of_eq h3)

/-- Feeding the truncated amount1 of a range back into the amount1-limited
liquidity formula can only lose value: the result is at most the original
liquidity. -/
theorem roundtrip1_le {L pa pb : ℚ} (hab : pa < pb) (hL : 0 ≤ L) :
    (calc_amount1 L pa pb : ℚ) * (Q96 : ℚ) / (pb - pa) ≤ L := by
  have hq : (0 : ℚ) < (Q96 : ℚ) := by rw [q96_cast]; positivity
  have hd : (0 : ℚ) < pb - pa := sub_pos.2 hab
  have hx : (0 : ℚ) ≤ L * (pb - pa) / (Q96 : ℚ) := by positivity
  have h1 : (calc_amount1 L pa pb : ℚ) ≤ L * (pb - pa) / (Q96 : ℚ) := by
    simp only [calc_amount1, sort2_of_le hab.le]
    exact qtrunc_le hx
  have h2 : (calc_amount1 L pa pb : ℚ) * (Q96 : ℚ) / (pb - pa) =
      (calc_amount1 L pa pb : ℚ) * ((Q96 : ℚ) / (pb - pa)) := by
    ring
  have h3 : (L * (pb - pa) / (Q96 : ℚ)) * ((Q96 : ℚ) / (pb - pa)) = L := by
    field_simp
  rw [h2]
  exact le_trans (mul_le_mul_of_nonneg_right h1 (by positivity)) (le_of_eq h3)

/-- C4 counterexample: with liquidity 3, current sqrt price 3 * 2^95 inside
the bounds (2^96, 2^97), get_amounts_for_liquidity truncates both amounts, and
feeding them back into get_liquidity_for_amounts returns 0, not 3: the
round trip is not exact. -/
theorem amounts_roundtrip_counterexample :
    get_liquidity_for_amounts (3 * 2 ^ 95) (2 ^ 96) (2 ^ 97)
        ((get_amounts_for_liquidity 3 (3 * 2 ^ 95) (2 ^ 96) (2 ^ 97)).1 : ℚ)
        ((get_amounts_for_liquidity 3 (3 * 2 ^ 95) (2 ^ 96) (2 ^ 97)).2 : ℚ) ≠
      some 3 := by
  have hA : ((2 : ℚ) ^ 96) < 3 * 2 ^ 95 := by norm_num
  have hB : ((3 : ℚ) * 2 ^ 95) < 2 ^ 97 := by norm_num
  have ha0 : calc_amount0 3 (3 * 2 ^ 95) (2 ^ 97) = 0 := by
    simp only [calc_amount0, sort2_of_le hB.le]
    rw [show (3 * ((Q96 : ℕ) : ℚ) * ((2 : ℚ) ^ 97 - 3 * 2 ^ 95) / (2 : ℚ) ^ 97 /
        (3 * (2 : ℚ) ^ 95)) = 1 / 2 by rw [q96_cast]; norm_num]
    rw [qtrunc_eq_floor (by norm_num)]
    norm_num
  have ha1 : calc_amount1 3 (2 ^ 96) (3 * 2 ^ 95) = 1 := by
    simp only [calc_amount1, sort2_of_le hA.le]
    rw [show ((3 : ℚ) * (3 * (2 : ℚ) ^ 95 - (2 : ℚ) ^ 96) / ((Q96 : ℕ) : ℚ)) = 3 / 2 by
      rw [q96_cast]; norm_num]
    rw [qtrunc_eq_floor (by norm_num)]
    norm_num
  have hamts : get_amounts_for_liquidity 3 (3 * 2 ^ 95) (2 ^ 96) (2 ^ 97) = (0, 1) := by
    simp only [get_amounts_for_liquidity, sort2_of_le (show ((2 : ℚ) ^ 96) ≤ 2 ^ 97 by norm_num)]
    rw [if_neg (not_le.2 hA), if_pos hB, ha0, ha1]
  rw [hamts]
  rw [gl_region_mid _ _ hA hB]
  have hval : min (((0 : ℤ) : ℚ) * (3 * 2 ^ 95 * 2 ^ 97) / ((Q96 : ℕ) : ℚ) /
      ((2 : ℚ) ^ 97 - 3 * 2 ^ 95)) (((1 : ℤ) : ℚ) * ((Q96 : ℕ) : ℚ) /
      (3 * (2 : ℚ) ^ 95 - (2 : ℚ) ^ 96)) = 0 := by
    rw [q96_cast]
    norm_num
  rw [hval]
  simp

/-- C4 amended: the round trip from liquidity to amounts and back is a lower
bound rather than an exact inverse: for positive ordered bounds and
nonnegative liquidity L, get_liquidity_for_amounts applied to the amounts of
get_amounts_for_liquidity succeeds and returns at most L (the int()
truncation of the two amounts loses up to one unit of each token). -/
theorem amounts_roundtrip_le (L sqrtC sqrtA sqrtB : ℚ)
    (hA : 0 < sqrtA) (hAB : sqrtA < sqrtB) (hL : 0 ≤ L) :
    ∃ l : ℚ,
      get_liquidity_for_amounts sqrtC sqrtA sqrtB
          ((get_amounts_for_liquidity L sqrtC sqrtA sqrtB).1 : ℚ)
          ((get_amounts_for_liquidity L sqrtC sqrtA sqrtB).2 : ℚ) = some l ∧
        l ≤ L := by
  rcases le_or_lt sqrtC sqrtA with hC | hAC
  · have hga : get_amounts_for_liquidity L sqrtC sqrtA sqrtB =
        (calc_amount0 L sqrtA sqrtB, 0) := by
      simp only [get_amounts_for_liquidity, sort2_of_le hAB.le]
      rw [if_pos hC]
    rw [hga, gl_region_low _ _ hAB.le hC, liquidity0_of_lt _ hAB]
    exact ⟨_, rfl, roundtrip0_le hA hAB hL⟩
  · rcases lt_or_le sqrtC sqrtB with hCB | hBC
    · have hga : get_amounts_for_liquidity L sqrtC sqrtA sqrtB =
          (calc_amount0 L sqrtC sqrtB, calc_amount1 L sqrtA sqrtC) := by
        simp only [get_amounts_for_liquidity, sort2_of_le hAB.le]
        rw [if_neg (not_le.2 hAC), if_pos hCB]
      rw [hga, gl_region_mid _ _ hAC hCB]
      exact ⟨_, rfl,
        le_trans (min_le_left _ _) (roundtrip0_le (hA.trans hAC) hCB hL)⟩
    · have hga : get_amounts_for_liquidity L sqrtC sqrtA sqrtB =
          (0, calc_amount1 L sqrtA sqrtB) := by
        simp only [get_amounts_for_liquidity, sort2_of_le hAB.le]
        rw [if_neg (not_le.2 hAC), if_neg (not_lt.2 hBC)]
      rw [hga, gl_region_high _ _ hAB.le hAC hBC, liquidity1_of_lt _ hAB]
      exact ⟨_, rfl, roundtrip1_le hAB hL⟩

/-- Witness for the amended C4 at L = 3, current price 3 * 2^95, bounds
(2^96, 2^97). -/
theorem amounts_roundtrip_le_witness :
    0 < ((2 : ℚ) ^ 96) ∧ ((2 : ℚ) ^ 96) < 2 ^ 97 ∧ (0 : ℚ) ≤ 3 ∧
      ∃ l : ℚ,
        get_liquidity_for_amounts (3 * 2 ^ 95) (2 ^ 96) (2 ^ 97)
            ((get_amounts_for_liquidity 3 (3 * 2 ^ 95) (2 ^ 96) (2 ^ 97)).1 : ℚ)
            ((get_amounts_for_liquidity 3 (3 * 2 ^ 95) (2 ^ 96) (2 ^ 97)).2 : ℚ) =
          some l ∧ l ≤ 3 :=
  ⟨by norm_num, by norm_num, by norm_num,
    amounts_roundtrip_le 3 (3 * 2 ^ 95) (2 ^ 96) (2 ^ 97)
      (by norm_num) (by norm_num) (by norm_num)⟩

/-- Class-level attribute state of DataCollector in pool.py. The dataclass
declares `step = []`, `tick = []`, the price, volume and reserve lists without
type annotations, so they are not dataclass fields but class attributes: one
set of lists shared by every DataCollector instance (hence by every pool) and
mutated in place by `append`. -/
structure DataCollectorClassState where
  step : List ℤ
  tick : List ℤ
  t0_price : List ℚ
  t1_price : List ℚ
  t0_volume : List ℚ
  t1_volume : List ℚ
  t0_reserves : List ℚ
  t1_reserves : List ℚ

/-- Instance attributes of a DataCollector in pool.py: the annotated dataclass
fields (the token symbols) plus the scalar volume accumulators, which become
per-instance attributes on their first assignment. -/
structure DataCollector where
  token0_symbol : String
  token1_symbol : String
  t0_current_volume : ℚ
  t1_current_volume : ℚ

/-- Market state of one pool as sampled by Pool.collect_data: the tick from
slot0, the two exchange prices, and the pool reserves. -/
structure PoolSample where
  tick : ℤ
  t0_price : ℚ
  t1_price : ℚ
  t0_reserve : ℚ
  t1_reserve : ℚ

/-- Pool.collect_data from pool.py: appends the step, tick, prices, the
volumes accumulated by the calling pool's collector (collect_volume, which
also divides by 1e18 and resets the per-step accumulators) and the reserves.
All eight appends go to the class-level lists shared by every pool; only the
scalar volume accumulators belong to the calling pool's own collector. -/
def collect_data (shared : DataCollectorClassState) (data : DataCollector)
    (sample : PoolSample) (step : ℤ) : DataCollectorClassState × DataCollector :=
  ({ step := shared.step ++ [step],
     tick := shared.tick ++ [sample.tick],
     t0_price := shared.t0_price ++ [sample.t0_price],
     t1_price := shared.t1_price ++ [sample.t1_price],
     t0_volume := shared.t0_volume ++ [data.t0_current_volume / 10 ^ 18],
     t1_volume := shared.t1_volume ++ [data.t1_current_volume / 10 ^ 18],
     t0_reserves := shared.t0_reserves ++ [sample.t0_reserve],
     t1_reserves := shared.t1_reserves ++ [sample.t1_reserve] },
   { data with t0_current_volume := 0, t1_current_volume := 0 })

/-- C6 fails on the code: the recorded series live in class attributes shared
by all DataCollector instances, so one pool's collect_data appends its
observation to the very lists every other pool reads as its own series; the
shared step series afterwards differs from its previous value, so any other
pool's recorded series has changed. -/
theorem collect_data_mutates_shared_series
    (shared : DataCollectorClassState) (data : DataCollector)
    (sample : PoolSample) (step : ℤ) :
    (collect_data shared data sample step).1.step = shared.step ++ [step] ∧
      (collect_data shared data sample step).1.step ≠ shared.step := by
  refine ⟨rfl, ?_⟩
  intro h
  have hlen := congrArg List.length h
  simp [collect_data] at hlen

/-- The tick base as an explicit fraction. -/
theorem TICK_BASE_eq : TICK_BASE = 10001 / 10000 := by
  norm_num [TICK_BASE]

/-- The tick base exceeds one. -/
theorem one_lt_TICK_BASE : (1 : ℝ) < TICK_BASE := by
  rw [TICK_BASE_eq]; norm_num

/-- The tick base is positive. -/
theorem TICK_BASE_pos : (0 : ℝ) < TICK_BASE :=
  lt_trans one_pos one_lt_TICK_BASE

/-- 1.0001 to the 81021 is at least 3300 (exact integer computation). -/
theorem tick_base_pow_81021 : (3300 : ℝ) ≤ TICK_BASE ^ (81021 : ℕ) := by
  rw [TICK_BASE_eq, div_pow, le_div_iff₀ (by positivity)]
  have h : (3300 : ℕ) * 10000 ^ 81021 ≤ 10001 ^ 81021 := by decide
  exact_mod_cast h

/-- 1.0001 to the 81020 is below 3300 (exact integer computation). -/
theorem tick_base_pow_81020 : TICK_BASE ^ (81020 : ℕ) < (3300 : ℝ) := by
  rw [TICK_BASE_eq, div_pow, div_lt_iff₀ (by positivity)]
  have h : (10001 : ℕ) ^ 81020 < 3300 * 10000 ^ 81020 := by decide
  exact_mod_cast h

/-- C2: constructing the pool from tokens priced (3300, 1) initializes the
sqrt price to price_to_sqrtp of the price ratio 1/3300 of the two scaled
initial prices, and the tick of that price, price_to_tick(1/3300), is
-81021. -/
theorem pool_init_scenario_3300 :
    pool_init_sqrtp (Token.mk "USDC" 3300) (Token.mk "WETH" 1) 500 =
      some (price_to_sqrtp (1 / 3300)) ∧
    price_to_tick (1 / 3300) = -81021 := by
  constructor
  · have hcond : (500 : ℤ) ∈ FEE_RANGE ∧ (Token.mk "WETH" (1 : ℚ)).start_price = 1 :=
      ⟨by decide, rfl⟩
    rw [pool_init_sqrtp, if_pos hcond]
    have hb : (Token.mk "WETH" (1 : ℚ)).initial_price = 10 ^ 18 := as_18_one
    have ha : (Token.mk "USDC" (3300 : ℚ)).initial_price = 3300 * 10 ^ 18 := by
      show as_18 3300 = 3300 * 10 ^ 18
      rw [show (3300 : ℚ) = ((3300 : ℤ) : ℚ) by norm_num, as_18_intCast]
    rw [hb, ha]
    congr 1
    push_cast
    norm_num
  · have hx : ((1 / 3300 : ℚ) : ℝ) = 1 / 3300 := by push_cast; norm_num
    rw [price_to_tick, hx]
    have hp0 : (0 : ℝ) < 1 / 3300 := by norm_num
    rw [Int.floor_eq_iff]
    constructor
    · rw [Real.le_logb_iff_rpow_le one_lt_TICK_BASE hp0]
      rw [show ((-81021 : ℤ) : ℝ) = -((81021 : ℕ) : ℝ) by push_cast; ring,
        Real.rpow_neg TICK_BASE_pos.le, Real.rpow_natCast]
      rw [inv_eq_one_div, div_le_div_iff₀ (pow_pos TICK_BASE_pos _) (by norm_num : (0:ℝ) < 3300)]
      nlinarith [tick_base_pow_81021]
    · rw [show ((-81021 : ℤ) : ℝ) + 1 = -((81020 : ℕ) : ℝ) by push_cast; ring]
      rw [Real.logb_lt_iff_lt_rpow one_lt_TICK_BASE hp0]
      rw [Real.rpow_neg TICK_BASE_pos.le, Real.rpow_natCast]
      rw [show (1 : ℝ) / 3300 = (3300 : ℝ)⁻¹ by norm_num]
      exact inv_strictAnti₀ (pow_pos TICK_BASE_pos _) tick_base_pow_81020

/-- 1.0001 to the 443636 (half the tick range) stays 20002 times below 2^96
(exact integer computation): the fixed-point grid resolves every in-range
half-tick power with margin. -/
theorem tick_base_pow_half_range :
    TICK_BASE ^ (443636 : ℕ) * 20002 ≤ 2 ^ 96 := by
  rw [TICK_BASE_eq, div_pow, div_mul_eq_mul_div, div_le_iff₀ (by positivity)]
  have h : (10001 : ℕ) ^ 443636 * 20002 ≤ 2 ^ 96 * 10000 ^ 443636 := by decide
  exact_mod_cast h

/-- C3: for every tick in the valid range, converting the tick to a sqrt
price (tick_to_sqrtx96), that to a price (sqrtp_to_price) and the price back
to a tick (price_to_tick) lands within one unit of the original tick. -/
theorem tick_price_roundtrip (t : ℤ) (h : is_tick_in_range t = true) :
    |price_to_tick (sqrtp_to_price (tick_to_sqrtx96 t)) - t| ≤ 1 := by
  have hr : MIN_TICK ≤ t ∧ t ≤ MAX_TICK := by simpa [is_tick_in_range] using h
  have h1 : (-887272 : ℤ) ≤ t := hr.1
  have h2 : t ≤ 887272 := hr.2
  have hb1 : (1 : ℝ) < TICK_BASE := one_lt_TICK_BASE
  have hb0 : (0 : ℝ) < TICK_BASE := TICK_BASE_pos
  have hq : ((Q96 : ℕ) : ℝ) = 2 ^ 96 := by norm_num [Q96]
  have hq0 : (0 : ℝ) < 2 ^ 96 := by positivity
  set u : ℝ := TICK_BASE ^ ((t : ℝ) / 2) with hu_def
  have hu0 : 0 < u := Real.rpow_pos_of_pos hb0 _
  -- lower bound on the half-tick power from the range hypothesis
  have humin : 20002 / 2 ^ 96 ≤ u := by
    have hexp : (-((443636 : ℕ) : ℝ)) ≤ (t : ℝ) / 2 := by
      have hc : (-887272 : ℝ) ≤ (t : ℝ) := by exact_mod_cast h1
      push_cast
      linarith
    have h3 : TICK_BASE ^ (-((443636 : ℕ) : ℝ)) ≤ u :=
      Real.rpow_le_rpow_of_exponent_le hb1.le hexp
    have h4 : TICK_BASE ^ (-((443636 : ℕ) : ℝ)) = (TICK_BASE ^ (443636 : ℕ))⁻¹ := by
      rw [Real.rpow_neg hb0.le, Real.rpow_natCast]
    have h5 : 20002 / 2 ^ 96 ≤ (TICK_BASE ^ (443636 : ℕ))⁻¹ := by
      rw [inv_eq_one_div, div_le_div_iff₀ hq0 (pow_pos hb0 _)]
      nlinarith [tick_base_pow_half_range]
    rw [h4] at h3
    exact le_trans h5 h3
  -- the floored fixed-point sqrt price
  have hqnn : (0 : ℝ) ≤ ((Q96 : ℕ) : ℝ) := by rw [hq]; positivity
  have hx0 : (0 : ℝ) ≤ u * ((Q96 : ℕ) : ℝ) := mul_nonneg hu0.le hqnn
  have hs_def : tick_to_sqrtx96 t = ⌊u * ((Q96 : ℕ) : ℝ)⌋ := by
    simp only [tick_to_sqrtx96, rtrunc, hu_def]
    rw [if_pos hx0]
  set s : ℤ := ⌊u * ((Q96 : ℕ) : ℝ)⌋ with hs_eq
  have hsle : (s : ℝ) ≤ u * ((Q96 : ℕ) : ℝ) := Int.floor_le _
  have hsgt : u * ((Q96 : ℕ) : ℝ) - 1 < (s : ℝ) := Int.sub_one_lt_floor _
  have hs0 : (0 : ℝ) ≤ (s : ℝ) := by
    have : (0 : ℤ) ≤ s := Int.floor_nonneg.2 hx0
    exact_mod_cast this
  -- the price, as a real number
  have hp_cast : ((sqrtp_to_price s : ℚ) : ℝ) = ((s : ℝ) / 2 ^ 96) ^ 2 := by
    simp only [sqrtp_to_price]
    push_cast
    rw [hq]
  set p : ℝ := ((s : ℝ) / 2 ^ 96) ^ 2 with hp_def
  -- upper bound: p is at most the exact price of tick t
  have hudiv : (s : ℝ) / 2 ^ 96 ≤ u := by
    rw [div_le_iff₀ hq0, ← hq]
    exact hsle
  have hp_upper : p ≤ u ^ 2 :=
    pow_le_pow_left₀ (div_nonneg hs0 hq0.le) hudiv 2
  have hu2 : u ^ 2 = TICK_BASE ^ ((t : ℝ)) := by
    rw [hu_def, ← Real.rpow_natCast (TICK_BASE ^ ((t : ℝ) / 2)) 2,
      ← Real.rpow_mul hb0.le]
    norm_num
  -- lower bound: p is at least the exact price of tick t - 1
  have hlow1 : u - 1 / 2 ^ 96 ≤ (s : ℝ) / 2 ^ 96 := by
    rw [le_div_iff₀ hq0]
    have h6 : u * 2 ^ 96 - 1 < (s : ℝ) := by
      rw [← hq]
      exact hsgt
    nlinarith
  have hd0 : (0 : ℝ) ≤ u - 1 / 2 ^ 96 := by
    have h7 : (1 : ℝ) / 2 ^ 96 ≤ 20002 / 2 ^ 96 := by norm_num
    linarith
  have hp_lower1 : (u - 1 / 2 ^ 96) ^ 2 ≤ p :=
    pow_le_pow_left₀ hd0 hlow1 2
  have hp_lower2 : u ^ 2 * (10000 / 10001) ≤ (u - 1 / 2 ^ 96) ^ 2 := by
    nlinarith [mul_le_mul_of_nonneg_right humin hu0.le]
  have hbt1 : TICK_BASE ^ (((t - 1 : ℤ)) : ℝ) = u ^ 2 * (10000 / 10001) := by
    rw [show (((t - 1 : ℤ)) : ℝ) = (t : ℝ) + (-1) by push_cast; ring,
      Real.rpow_add hb0, ← hu2, Real.rpow_neg_one]
    rw [show TICK_BASE⁻¹ = 10000 / 10001 by rw [TICK_BASE_eq]; norm_num]
  have hp0 : (0 : ℝ) < p := by
    have h8 : (0 : ℝ) < u ^ 2 * (10000 / 10001) := by positivity
    linarith
  -- convert the goal to bounds on the floor of the log
  rw [hs_def]
  have hptk : price_to_tick (sqrtp_to_price s) = ⌊Real.logb TICK_BASE p⌋ := by
    simp only [price_to_tick]
    rw [hp_cast]
  rw [hptk]
  have hup : Real.logb TICK_BASE p ≤ (t : ℝ) := by
    rw [Real.logb_le_iff_le_rpow hb1 hp0, Real.rpow_intCast]
    rw [show TICK_BASE ^ t = TICK_BASE ^ ((t : ℝ)) by
      rw [Real.rpow_intCast]]
    rw [← hu2]
    exact hp_upper
  have hlo : ((t : ℝ)) - 1 ≤ Real.logb TICK_BASE p := by
    rw [Real.le_logb_iff_rpow_le hb1 hp0]
    rw [show ((t : ℝ)) - 1 = (((t - 1 : ℤ)) : ℝ) by push_cast; ring, hbt1]
    linarith
  have hf1 : ⌊Real.logb TICK_BASE p⌋ ≤ t := by
    have := Int.floor_le_floor hup
    rwa [Int.floor_intCast] at this
  have hf2 : t - 1 ≤ ⌊Real.logb TICK_BASE p⌋ := by
    rw [Int.le_floor]
    push_cast
    linarith
  rw [abs_le]
  omega

/-- Witness for C3 at the in-range tick 5. -/
theorem tick_price_roundtrip_witness :
    is_tick_in_range 5 = true ∧
      |price_to_tick (sqrtp_to_price (tick_to_sqrtx96 5)) - 5| ≤ 1 :=
  ⟨by decide, tick_price_roundtrip 5 (by decide)⟩
